import Mathlib

/-!
Verification of the texture-matching / UDIM-sequence-detection core of the
fbx_loader repository (src/udim_utils.py, src/material_utils.py,
src/constants.py).

Modelling conventions (shallow embedding):
* Python strings are modelled as `List Char` (`Str`).  Python's `str.lower`,
  the regex classes `\d` and `\s`, and filename handling are modelled for
  ASCII data; paths are modelled with the posix separator `: `'/'` (the code
  itself normalises `os.sep` to `'/'`).
* Python dicts that are only extended (never overwritten) are modelled as
  association lists in insertion order; `d[k] = v` on an absent key is
  `l ++ [(k, v)]` and `k in d` is `(alookup l k).isSome`.
* `re.match` of the anchored UDIM pattern
  `^(.+)[._](\d{4})\.(jpg|jpeg|png|tga|tif|tiff|exr|hdr|pic|rat)$` (with
  `re.IGNORECASE`) is modelled by `matchUdim`: the greedy `(.+)` group is the
  longest base for which the fixed-shape remainder parses; `$` also accepts a
  position before one trailing newline, and `.` does not match a newline,
  both of which are modelled faithfully.
* `list.sort(key=...)` (Python's stable ascending sort) is modelled by
  `List.insertionSort`, which is a stable ascending sort and therefore the
  same function on lists.
-/

namespace FbxLoader

/-- Python strings, modelled as lists of characters. -/
abbrev Str := List Char

/-- Shorthand for writing concrete `Str` values. -/
def str (x : String) : Str := x.data

/-- ASCII lowercasing of a single character (models `str.lower` on ASCII data). -/
def lowerChar (c : Char) : Char :=
  if 'A' ≤ c ∧ c ≤ 'Z' then Char.ofNat (c.toNat + 32) else c

/-- `s.lower()` on ASCII data. -/
def pyLower (t : Str) : Str := t.map lowerChar

/-- The regex class `\d` (modelled for ASCII). -/
def isPyDigit (c : Char) : Bool := decide ('0' ≤ c ∧ c ≤ '9')

/-- `int(...)` applied to a string of ASCII digits. -/
def digitsToNat (d : Str) : Nat :=
  d.foldl (fun n c => n * 10 + (c.toNat - '0'.toNat)) 0

/-- Python's `needle in hay` substring test. -/
def strContains (hay needle : Str) : Bool := decide (needle <:+: hay)

/-- Association-list lookup, modelling Python dict access in insertion order
(the modelled dicts never overwrite an existing key). -/
def alookup : List (Str × Str) → Str → Option Str
  | [], _ => none
  | (k, v) :: rest, key => if k = key then some v else alookup rest key

/-! ### posixpath operations (`os.path` with `'/'` separator) -/

/-- `os.path.basename`: the part after the last `'/'`. -/
def basename (p : Str) : Str :=
  (p.reverse.takeWhile (fun c => c ≠ '/')).reverse

/-- `os.path.dirname`: everything up to the last `'/'`, with trailing slashes
stripped unless the head consists only of slashes. -/
def dirname (p : Str) : Str :=
  let head := (p.reverse.dropWhile (fun c => c ≠ '/')).reverse
  if head ≠ [] ∧ ¬ head.all (fun c => c = '/') then
    (head.reverse.dropWhile (fun c => c = '/')).reverse
  else head

/-- `os.path.join a b` (posix; two arguments as used by the source). -/
def pjoin (a b : Str) : Str :=
  if b.head? = some '/' then b
  else if a = [] ∨ a.getLast? = some '/' then a ++ b
  else a ++ '/' :: b

/-- `os.path.splitext`: split off the extension at the last dot of the final
path component, unless all characters before that dot are dots. -/
def splitext (p : Str) : Str × Str :=
  let b := basename p
  let extRev := b.reverse.takeWhile (fun c => c ≠ '.')
  if extRev.length = b.length then (p, [])
  else
    let stemB := b.take (b.length - extRev.length - 1)
    if stemB.all (fun c => c = '.') then (p, [])
    else (p.take (p.length - extRev.length - 1), '.' :: extRev.reverse)

/-- Python `p.split('/')` (every separator splits; empty pieces kept). -/
def splitSlash : Str → List Str
  | [] => [[]]
  | c :: rest =>
    let r := splitSlash rest
    if c = '/' then [] :: r
    else match r with
      | [] => [[c]]
      | piece :: more => (c :: piece) :: more

/-- `'/'.join(pieces)`. -/
def joinSep (sep : Str) : List Str → Str
  | [] => []
  | [x] => x
  | x :: y :: rest => x ++ sep ++ joinSep sep (y :: rest)

/-- The component-processing loop of `posixpath.normpath`. -/
def normComps (initialSlashes : Nat) : List Str → List Str → List Str
  | acc, [] => acc
  | acc, comp :: rest =>
    if comp = [] ∨ comp = ['.'] then normComps initialSlashes acc rest
    else if comp ≠ ['.', '.'] ∨ (initialSlashes = 0 ∧ acc = []) ∨
        acc.getLast? = some ['.', '.'] then
      normComps initialSlashes (acc ++ [comp]) rest
    else if acc ≠ [] then normComps initialSlashes (acc.dropLast) rest
    else normComps initialSlashes acc rest

/-- `posixpath.normpath`. -/
def normpath (p : Str) : Str :=
  if p = [] then ['.']
  else
    let initialSlashes : Nat :=
      if p.head? = some '/' then
        if (p.take 2 = str "//") ∧ ¬ (p.take 3 = str "///") then 2 else 1
      else 0
    let comps := normComps initialSlashes [] (splitSlash p)
    let joined := joinSep (str "/") comps
    let out := List.replicate initialSlashes '/' ++ joined
    if out = [] then ['.'] else out

/-! ### `re.split(r"[_\-\s.]+", s)` -/

/-- The separator class `[_\-\s.]` of the base-name splitter (`\s` modelled
for ASCII whitespace). -/
def isSepChar (c : Char) : Bool :=
  decide (c = '_' ∨ c = '-' ∨ c = '.' ∨ c = ' ' ∨ c = '\t' ∨ c = '\n' ∨
    c = '\r' ∨ c = Char.ofNat 11 ∨ c = Char.ofNat 12)

mutual

/-- `re.split` on a run of separators: accumulating a piece. -/
def reSplitAcc : Str → Str → List Str
  | [], acc => [acc.reverse]
  | c :: rest, acc =>
    if isSepChar c then acc.reverse :: reSplitSkip rest
    else reSplitAcc rest (c :: acc)

/-- `re.split` on a run of separators: skipping the rest of a separator run. -/
def reSplitSkip : Str → List Str
  | [] => [[]]
  | c :: rest =>
    if isSepChar c then reSplitSkip rest
    else reSplitAcc rest [c]

end

/-- `re.split(r"[_\-\s.]+", s)`. -/
def reSplitSeps (t : Str) : List Str := reSplitAcc t []

/-- `[part for part in parts if len(part) > 2]` over the split of `t`. -/
def partsGT2 (t : Str) : List Str :=
  (reSplitSeps t).filter (fun p => decide (p.length > 2))

/-! ### Constants (src/constants.py `UDIM_CONFIG`, src/material_utils.py
`ENHANCED_TEXTURE_KEYWORDS`) -/

/-- The extension alternation of `UDIM_CONFIG["pattern"]` (lowercase; the
pattern is compiled with `re.IGNORECASE`). -/
def UDIM_extensions : List Str :=
  [str "jpg", str "jpeg", str "png", str "tga", str "tif", str "tiff",
   str "exr", str "hdr", str "pic", str "rat"]

/-- `UDIM_CONFIG["range_start"]`. -/
def UDIM_range_start : Nat := 1001

/-- `UDIM_CONFIG["range_end"]`. -/
def UDIM_range_end : Nat := 1100

/-- `UDIM_CONFIG["min_tiles"]`. -/
def UDIM_min_tiles : Nat := 2

/-- `UDIM_CONFIG["placeholder"]`. -/
def UDIM_placeholder : Str := str "<UDIM>"

/-- The range test `UDIM_CONFIG["range_start"] <= n <= UDIM_CONFIG["range_end"]`
(src/udim_utils.py line 53). -/
def inUdimRange (n : Nat) : Bool :=
  decide (UDIM_range_start ≤ n ∧ n ≤ UDIM_range_end)

/-- A channel-keyword table (Python dict in insertion order). -/
abbrev KeywordTable := List (Str × List Str)

/-- The `"BaseMap"` channel name. -/
def chBaseMap : Str := str "BaseMap"

/-- `ENHANCED_TEXTURE_KEYWORDS` of src/material_utils.py (the module-level
table used as the default by `find_matching_textures`; note it has 9 channels,
unlike the 11-channel table of src/constants.py). -/
def ENHANCED_TEXTURE_KEYWORDS : KeywordTable :=
  [ (str "BaseMap",
     [str "basemap", str "diff", str "dif", str "diffuse", str "albedo",
      str "basecolor", str "col", str "color", str "base", str "alb",
      str "bc", str "_d", str "-d", str "_c", str "-c", str "diffmap",
      str "colormap", str "diffusemap", str "_color", str "_base",
      str "_basecolor", str "_albedo", str "BaseColor", str "Albedo",
      str "Base_Color", str "BaseMap", str "DiffuseMap", str "ColorMap",
      str "Diffuse", str "Color"]),
    (str "Normal",
     [str "normal", str "norm", str "nml", str "nrm", str "_n", str "-n",
      str "nor", str "normalmap", str "normalmaps", str "bump",
      str "bumpmap", str "_bump", str "_b", str "-b", str "relief",
      str "bumpmaps", str "Normal", str "NormalMap", str "Normal_Map",
      str "_normal", str "_norm", str "_nml"]),
    (str "Roughness",
     [str "rough", str "roughness", str "rgh", str "_r", str "-r",
      str "roughnessmap", str "roughmaps", str "gloss", str "glossmap",
      str "glossiness", str "smoothness", str "smooth", str "Roughness",
      str "RoughnessMap", str "Rough", str "_roughness", str "_rough",
      str "_rgh"]),
    (str "Metallic",
     [str "metal", str "metallic", str "met", str "metalness", str "_m",
      str "-m", str "metallicmap", str "metallicmaps", str "spec",
      str "specular", str "_s", str "-s", str "specularmap",
      str "specularmaps", str "Metallic", str "MetallicMap", str "Metal",
      str "_metallic", str "_metal", str "_met"]),
    (str "AO",
     [str "ao", str "ambient", str "occlusion", str "ambientocclusion",
      str "_ao", str "-ao", str "occlusionmap", str "ambientocclusionmap",
      str "aomaps", str "AO", str "AmbientOcclusion",
      str "Ambient_Occlusion", str "_ambientocclusion"]),
    (str "Emissive",
     [str "emissive", str "emission", str "emit", str "glow", str "_e",
      str "-e", str "emissionmap", str "emissivemap", str "selfillum",
      str "emissivemaps", str "Emissive", str "EmissiveMap", str "Emission",
      str "Emit", str "_emissive", str "_emission"]),
    (str "Height",
     [str "height", str "heightmap", str "displacement", str "disp",
      str "_h", str "-h", str "displacementmap", str "parallax",
      str "heightmaps", str "Height", str "HeightMap", str "Displacement",
      str "Disp", str "_height", str "_disp", str "_displacement"]),
    (str "Opacity",
     [str "opacity", str "alpha", str "transparent", str "transparency",
      str "_a", str "-a", str "_o", str "-o", str "opacitymap",
      str "alphamap", str "mask", str "opacitymaps", str "Opacity",
      str "OpacityMap", str "Alpha", str "AlphaMap", str "_opacity",
      str "_alpha"]),
    (str "Specular",
     [str "specular", str "spec", str "_s", str "-s", str "specularmap",
      str "reflection", str "refl", str "specularmaps", str "Specular",
      str "SpecularMap", str "Reflection", str "_specular", str "_spec"]) ]

/-! ### The UDIM filename regex -/

/-- Try the split of `name` at position `k`:
`base = name[:k]`, then a separator in `[._]`, four digits, a literal dot and
a supported extension running to the end of the string.  Mirrors one
backtracking position of
`^(.+)[._](\d{4})\.(jpg|jpeg|png|tga|tif|tiff|exr|hdr|pic|rat)$`;
`(.+)` cannot contain a newline. -/
def udimSplitAt (name : Str) (k : Nat) : Option (Str × Str × Str) :=
  let base := name.take k
  match name.drop k with
  | c :: rest2 =>
    if (c = '.' ∨ c = '_') ∧ base ≠ [] ∧ base.all (fun x => x ≠ '\n') then
      let d4 := rest2.take 4
      if d4.length = 4 ∧ d4.all isPyDigit then
        match rest2.drop 4 with
        | c2 :: ext =>
          if c2 = '.' ∧ UDIM_extensions.contains (pyLower ext) then
            some (base, d4, ext)
          else none
        | [] => none
      else none
    else none
  | [] => none

/-- The position accepted by an unanchored-at-the-right `$`: a single
trailing newline is dropped before matching. -/
def stripDollarNL (name : Str) : Str :=
  if name.getLast? = some '\n' then name.dropLast else name

/-- `re.compile(UDIM_CONFIG["pattern"], re.IGNORECASE).match(name)`:
the greedy `(.+)` picks the longest base that admits a full match.  A single
trailing newline is tolerated by `$`. -/
def matchUdim (name : Str) : Option (Str × Str × Str) :=
  let name := stripDollarNL name
  (List.range name.length).reverse.findSome? (udimSplitAt name)

/-! ### `detect_udim_sequences` (src/udim_utils.py lines 22-104) -/

/-- One accepted UDIM tile (`{'file': ..., 'udim': ..., 'extension': ...}`). -/
structure UdimTile where
  file : Str
  udim : Nat
  ext : Str
  deriving DecidableEq, Repr

/-- One detected sequence (`{'pattern': ..., 'tiles': ..., 'files': ...,
'tile_count': ...}`). -/
structure UdimSeq where
  pattern : Str
  tiles : List Nat
  files : List Str
  tile_count : Nat
  deriving DecidableEq, Repr

/-- The result dict of `detect_udim_sequences`. -/
structure UdimAnalysis where
  udim_sequences : List (Str × UdimSeq)
  single_textures : List Str
  deriving DecidableEq, Repr

/-- `udim_groups[base_name].append(tile)` on a `defaultdict(list)`:
append to the existing group, or create a new group at the end. -/
def addToGroup (gs : List (Str × List UdimTile)) (b : Str) (t : UdimTile) :
    List (Str × List UdimTile) :=
  match gs with
  | [] => [(b, [t])]
  | (k, ts) :: rest =>
    if k = b then (k, ts ++ [t]) :: rest
    else (k, ts) :: addToGroup rest b t

/-- The grouping loop of `detect_udim_sequences` (lines 43-64), one file. -/
def pass1Step (st : List (Str × List UdimTile) × List Str) (f : Str) :
    List (Str × List UdimTile) × List Str :=
  match matchUdim (basename f) with
  | some (b, d4, ext) =>
    if inUdimRange (digitsToNat d4) then
      (addToGroup st.1 b ⟨f, digitsToNat d4, ext⟩, st.2)
    else (st.1, st.2 ++ [f])
  | none => (st.1, st.2 ++ [f])

/-- The grouping loop of `detect_udim_sequences` over the whole input. -/
def pass1 (files : List Str) : List (Str × List UdimTile) × List Str :=
  files.foldl pass1Step ([], [])

/-- `udim_groups` after the grouping loop. -/
def pass1Groups (files : List Str) : List (Str × List UdimTile) :=
  (pass1 files).1

/-- `single_textures` after the grouping loop. -/
def pass1Singles (files : List Str) : List Str :=
  (pass1 files).2

/-- `tiles.sort(key=lambda x: x['udim'])`: Python's stable ascending sort,
modelled by stable insertion sort on the `udim` key. -/
def sortTiles (ts : List UdimTile) : List UdimTile :=
  List.insertionSort (fun a b => a.udim ≤ b.udim) ts

/-- Build the sequence entry for one group (lines 71-88): sort the tiles,
synthesize `dirname/<base>.<UDIM>.<ext>` from the first sorted tile and
normalise it (`.replace(os.sep, "/")` is the identity on posix). -/
def mkSeqEntry (b : Str) (tiles : List UdimTile) : Str × UdimSeq :=
  let sorted := sortTiles tiles
  let first := sorted.headD ⟨[], 0, []⟩
  let patternPath :=
    normpath (pjoin (dirname first.file)
      (b ++ '.' :: (UDIM_placeholder ++ '.' :: first.ext)))
  (b, { pattern := patternPath,
        tiles := sorted.map (fun t => t.udim),
        files := sorted.map (fun t => t.file),
        tile_count := tiles.length })

/-- The sequence-building loop of `detect_udim_sequences` (lines 69-97),
one group: promote it when `len(tiles) >= min_tiles`, otherwise push the
member files into `single_textures`. -/
def pass2Step (st : List (Str × UdimSeq) × List Str)
    (g : Str × List UdimTile) : List (Str × UdimSeq) × List Str :=
  if UDIM_min_tiles ≤ g.2.length then
    (st.1 ++ [mkSeqEntry g.1 g.2], st.2)
  else (st.1, st.2 ++ g.2.map (fun t => t.file))

/-- `detect_udim_sequences(texture_files)` (src/udim_utils.py lines 22-104). -/
def detect_udim_sequences (texture_files : List Str) : UdimAnalysis :=
  let st := pass1 texture_files
  let res := st.1.foldl pass2Step ([], st.2)
  { udim_sequences := res.1, single_textures := res.2 }

/-- Whether `detect_udim_sequences` accepts a file into a UDIM group: its
basename matches the UDIM pattern and the tile number is in range (the
combined test of src/udim_utils.py lines 45-53). -/
def acceptedUdim (f : Str) : Bool :=
  match matchUdim (basename f) with
  | some (_, d4, _) => inUdimRange (digitsToNat d4)
  | none => false

/-- All member files of a group list, in group order then insertion order. -/
def filesOfGroups (gs : List (Str × List UdimTile)) : List Str :=
  gs.flatMap (fun g => g.2.map (fun t => t.file))

/-! ### The texture classifier
(`_find_matching_textures_standard`, `find_matching_textures_with_udim`,
`find_matching_textures`) -/

/-- The channel-to-path result dict (`found_textures`), in insertion order. -/
abbrev TexMap := List (Str × Str)

/-- The search-base list of `_find_matching_textures_standard`
(src/material_utils.py lines 131-154): lowercased material name with spaces
replaced by underscores, lowercased model stem, their length->2 parts, then
`list(set(...))`.  Python's set iteration order is unspecified; only
membership in the list is ever consumed, so it is modelled by `List.dedup`. -/
def stdSearchBases (material_name model_basename : Str) : List Str :=
  let mLower := (pyLower material_name).map (fun c => if c = ' ' then '_' else c)
  let modelLower := if model_basename ≠ [] then pyLower (splitext model_basename).1 else []
  let b1 := if mLower ≠ [] then mLower :: partsGT2 mLower else []
  let b2 := if modelLower ≠ [] then modelLower :: partsGT2 modelLower else []
  (b1 ++ b2).dedup

/-- The keyword scan of the standard path (lines 174-191): over all still
unassigned channels, keep the channel of the keyword of greatest length that
is a substring of the lowercased basename; a strictly greater length is
required to displace the champion, so the first find wins length ties. -/
def stdBestChannel (found : TexMap) (table : KeywordTable)
    (texture_basename : Str) : Option Str :=
  (table.foldl
    (fun best tk =>
      if (alookup found tk.1).isSome then best
      else tk.2.foldl
        (fun b kw =>
          if strContains texture_basename kw ∧ b.2 < kw.length then
            (some tk.1, kw.length)
          else b)
        best)
    ((none : Option Str), 0)).1

/-- One iteration of the main loop of `_find_matching_textures_standard`
(lines 158-199).  The keyword scan runs on the lowercased basename (with
extension); the base-name gate runs on the lowercased stem.  The assignment
guard mirrors `if texture_type_found and texture_type_found not in
found_textures: if matches_base or len(search_bases) == 0:` including the
Python truthiness test on the channel name. -/
def stdStep (searchBases : List Str) (table : KeywordTable)
    (found : TexMap) (texture_file : Str) : TexMap :=
  let texture_basename := pyLower (basename texture_file)
  let texture_name_no_ext := pyLower (splitext texture_basename).1
  let matches_base := searchBases.any (fun b => strContains texture_name_no_ext b)
  match stdBestChannel found table texture_basename with
  | some t =>
    if t ≠ [] ∧ (alookup found t).isNone ∧ (matches_base ∨ searchBases = []) then
      found ++ [(t, texture_file)]
    else found
  | none => found

/-- The main loop of the standard path over all files. -/
def stdMainFold (searchBases : List Str) (table : KeywordTable)
    (found : TexMap) (files : List Str) : TexMap :=
  files.foldl (stdStep searchBases table) found

/-- One iteration of the aggressive fallback of the standard path (lines
206-220): assign the first still-unassigned channel one of whose keywords is
a substring of the lowercased basename; at most one assignment per file. -/
def stdAggStep (table : KeywordTable) (found : TexMap) (texture_file : Str) :
    TexMap :=
  let texture_basename := pyLower (basename texture_file)
  match table.find? (fun tk =>
      (alookup found tk.1).isNone ∧
        tk.2.any (fun kw => strContains texture_basename kw)) with
  | some tk => found ++ [(tk.1, texture_file)]
  | none => found

/-- The aggressive fallback loop of the standard path over all files. -/
def stdAggFold (table : KeywordTable) (found : TexMap) (files : List Str) :
    TexMap :=
  files.foldl (stdAggStep table) found

/-- `_find_matching_textures_standard(material_name, texture_files,
texture_keywords, model_basename)` (src/material_utils.py lines 113-231; the
source name carries a leading underscore, which Lean does not allow). -/
def find_matching_textures_standard (material_name : Str)
    (texture_files : List Str) (table : KeywordTable)
    (model_basename : Str) : TexMap :=
  match texture_files with
  | [f] => [(chBaseMap, f)]
  | [] => []
  | f :: g :: rest =>
    let files := f :: g :: rest
    let searchBases := stdSearchBases material_name model_basename
    let afterMain := stdMainFold searchBases table [] files
    let afterAgg := if afterMain = [] then stdAggFold table [] files else afterMain
    if afterAgg = [] then [(chBaseMap, f)] else afterAgg

/-- A classifier candidate of the UDIM path: a collapsed sequence or a single
file, with the derived matching name (`base_name`, or the stem of the
basename).  `ctype` is `"udim"`/`"single"` and is consumed only by logging. -/
structure Candidate where
  path : Str
  name : Str
  ctype : Str
  deriving DecidableEq, Repr

/-- The candidate list of `find_matching_textures_with_udim`
(src/udim_utils.py lines 131-150): sequences first, then single textures. -/
def candidatesOf (ua : UdimAnalysis) : List Candidate :=
  ua.udim_sequences.map (fun e => ⟨e.2.pattern, e.1, str "udim"⟩) ++
    ua.single_textures.map
      (fun f => ⟨f, (splitext (basename f)).1, str "single"⟩)

/-- The search-base list of `find_matching_textures_with_udim` (lines
157-170): as in the standard path but without the `list(set(...))`
deduplication. -/
def udimSearchBases (material_name model_basename : Str) : List Str :=
  let mLower := (pyLower material_name).map (fun c => if c = ' ' then '_' else c)
  let modelLower := if model_basename ≠ [] then pyLower (splitext model_basename).1 else []
  (if mLower ≠ [] then mLower :: partsGT2 mLower else []) ++
    (if modelLower ≠ [] then modelLower :: partsGT2 modelLower else [])

/-- The keyword scan of the UDIM path (lines 190-203): the first still
unassigned channel one of whose keywords is a substring of the lowercased
candidate name. -/
def udimFirstChannel (found : TexMap) (table : KeywordTable)
    (nameLower : Str) : Option (Str × List Str) :=
  table.find? (fun tk =>
    (alookup found tk.1).isNone ∧ tk.2.any (fun kw => strContains nameLower kw))

/-- One iteration of the main loop of `find_matching_textures_with_udim`
(lines 174-216), including the truthiness test of `if texture_type_found
and texture_type_found not in found_textures:`. -/
def udimStep (searchBases : List Str) (table : KeywordTable)
    (found : TexMap) (c : Candidate) : TexMap :=
  let nameLower := pyLower c.name
  let matches_base := searchBases.any (fun b => strContains nameLower b)
  match udimFirstChannel found table nameLower with
  | some tk =>
    if tk.1 ≠ [] ∧ (alookup found tk.1).isNone ∧
        (matches_base ∨ searchBases = []) then
      found ++ [(tk.1, c.path)]
    else found
  | none => found

/-- The main loop of the UDIM path over all candidates. -/
def udimMainFold (searchBases : List Str) (table : KeywordTable)
    (found : TexMap) (cands : List Candidate) : TexMap :=
  cands.foldl (udimStep searchBases table) found

/-- One iteration of the aggressive fallback of the UDIM path (lines
222-237): first still-unassigned matching channel, at most one assignment
per candidate. -/
def udimAggStep (table : KeywordTable) (found : TexMap) (c : Candidate) :
    TexMap :=
  match udimFirstChannel found table (pyLower c.name) with
  | some tk => found ++ [(tk.1, c.path)]
  | none => found

/-- The aggressive fallback loop of the UDIM path over all candidates. -/
def udimAggFold (table : KeywordTable) (found : TexMap)
    (cands : List Candidate) : TexMap :=
  cands.foldl (udimAggStep table) found

/-- `find_matching_textures_with_udim(material_name, texture_files,
texture_keywords, model_basename)` (src/udim_utils.py lines 107-252). -/
def find_matching_textures_with_udim (material_name : Str)
    (texture_files : List Str) (table : KeywordTable)
    (model_basename : Str) : TexMap :=
  if material_name = [] ∨ texture_files = [] then []
  else
    let cands := candidatesOf (detect_udim_sequences texture_files)
    let searchBases := udimSearchBases material_name model_basename
    let afterMain := udimMainFold searchBases table [] cands
    let afterAgg := if afterMain = [] then udimAggFold table [] cands else afterMain
    if afterAgg = [] ∧ cands ≠ [] then
      [(chBaseMap, (cands.headD ⟨[], [], []⟩).path)]
    else afterAgg

/-- `find_matching_textures(material_name, texture_files, texture_keywords,
model_basename)` (src/material_utils.py lines 68-110): a `None` keyword
table is replaced by the module's `ENHANCED_TEXTURE_KEYWORDS`; empty inputs
return `{}`; when at least two of the first fifty files match the UDIM
quick-check regex (textually identical to `UDIM_CONFIG["pattern"]`) the call
is delegated to `find_matching_textures_with_udim`, otherwise to the
standard path.  The statistics/logging calls of lines 95-100 have no effect
on the result and are not modelled. -/
def find_matching_textures (material_name : Str) (texture_files : List Str)
    (texture_keywords : Option KeywordTable) (model_basename : Str) : TexMap :=
  let table := texture_keywords.getD ENHANCED_TEXTURE_KEYWORDS
  if material_name = [] ∨ texture_files = [] then []
  else if 2 ≤ (texture_files.take 50).countP
      (fun f => (matchUdim (basename f)).isSome) then
    find_matching_textures_with_udim material_name texture_files table
      model_basename
  else
    find_matching_textures_standard material_name texture_files table
      model_basename

/-- A two-channel keyword table with `Metallic` before `Specular` (the
relative order they have in the default table), with the keywords named by
the specification's longest-keyword example. -/
def metalSpecTable : KeywordTable :=
  [(str "Metallic", [str "metal"]), (str "Specular", [str "specular"])]

/-- A two-channel keyword table used by concrete claim instances. -/
def diffNormalTable : KeywordTable :=
  [(str "BaseMap", [str "diff"]), (str "Normal", [str "normal"])]

set_option maxRecDepth 40000

/-! ## Helper lemmas -/

theorem alookup_append_left {l : TexMap} {c p : Str} (l2 : TexMap)
    (h : alookup l c = some p) : alookup (l ++ l2) c = some p := by
  induction l with
  | nil => simp [alookup] at h
  | cons kv rest ih =>
    obtain ⟨k, v⟩ := kv
    simp only [alookup, List.cons_append] at h ⊢
    by_cases hk : k = c
    · rwa [if_pos hk] at h ⊢
    · rw [if_neg hk] at h ⊢
      exact ih h

theorem alookup_ne_nil {l : TexMap} {c p : Str} (h : alookup l c = some p) :
    l ≠ [] := by
  intro hnil
  rw [hnil] at h
  simp [alookup] at h

theorem foldl_alookup_preserves {α : Type} {step : TexMap → α → TexMap}
    {c p : Str}
    (hstep : ∀ m x, alookup m c = some p → alookup (step m x) c = some p) :
    ∀ (l : List α) (m : TexMap), alookup m c = some p →
      alookup (l.foldl step m) c = some p := by
  intro l
  induction l with
  | nil => intro m h; simpa using h
  | cons x rest ih => intro m h; exact ih _ (hstep m x h)

theorem stdStep_preserves (sb : List Str) (tbl : KeywordTable) {c p : Str}
    (found : TexMap) (f : Str) (h : alookup found c = some p) :
    alookup (stdStep sb tbl found f) c = some p := by
  unfold stdStep
  dsimp only
  split
  · split
    · exact alookup_append_left _ h
    · exact h
  · exact h

theorem stdAggStep_preserves (tbl : KeywordTable) {c p : Str}
    (found : TexMap) (f : Str) (h : alookup found c = some p) :
    alookup (stdAggStep tbl found f) c = some p := by
  unfold stdAggStep
  dsimp only
  split
  · exact alookup_append_left _ h
  · exact h

theorem udimStep_preserves (sb : List Str) (tbl : KeywordTable) {c p : Str}
    (found : TexMap) (cand : Candidate) (h : alookup found c = some p) :
    alookup (udimStep sb tbl found cand) c = some p := by
  unfold udimStep
  dsimp only
  split
  · split
    · exact alookup_append_left _ h
    · exact h
  · exact h

theorem udimAggStep_preserves (tbl : KeywordTable) {c p : Str}
    (found : TexMap) (cand : Candidate) (h : alookup found c = some p) :
    alookup (udimAggStep tbl found cand) c = some p := by
  unfold udimAggStep
  split
  · exact alookup_append_left _ h
  · exact h

/-! ## Claims -/

/-- C2, counterexample: calling `find_matching_textures` with a `None`
keyword table does not fail; it silently proceeds (with the default table)
and produces a non-empty result, contradicting the claim that it fails with
`InvalidArgument` and never produces a result from a `None` table. -/
theorem C2_counterexample :
    find_matching_textures (str "wood")
      [str "wood_diff.jpg", str "wood_normal.jpg"] none [] =
      [(str "BaseMap", str "wood_diff.jpg"),
       (str "Normal", str "wood_normal.jpg")] := by decide

/-- C2, amended: a call with a `None` keyword table silently substitutes the
module-level default `ENHANCED_TEXTURE_KEYWORDS` table and behaves exactly
like a call with that table; no error is raised. -/
theorem C2_amended_none_table_defaults (m : Str) (files : List Str)
    (mb : Str) :
    find_matching_textures m files none mb =
      find_matching_textures m files (some ENHANCED_TEXTURE_KEYWORDS) mb := rfl

/-- C1, counterexample: on the UDIM path of `find_matching_textures` the
file `"metal_specular"` (collapsed from two UDIM tiles), with `Metallic`
keyword `"metal"` and `Specular` keyword `"specular"` both unassigned, is
classified under `Metallic` — the first channel in table order with any
matching keyword — not under the longer `Specular` match as claimed. -/
theorem C1_counterexample :
    find_matching_textures (str "metal_specular")
      [str "metal_specular.1001.jpg", str "metal_specular.1002.jpg"]
      (some metalSpecTable) [] =
      [(str "Metallic", str "metal_specular.<UDIM>.jpg")] := by decide

/-- C1, amended: longest-keyword-wins holds only on the standard
(non-UDIM) path, where `"metal_specular.jpg"` is classified under
`Specular`; the UDIM path instead assigns the first channel in table order
with any matching keyword, so the same name arriving as a UDIM sequence is
classified under `Metallic`. -/
theorem C1_amended_longest_keyword_paths :
    find_matching_textures (str "metal_specular")
      [str "metal_specular.jpg", str "other.png"] (some metalSpecTable) [] =
      [(str "Specular", str "metal_specular.jpg")] ∧
    find_matching_textures (str "metal_specular")
      [str "metal_specular.1001.jpg", str "metal_specular.1002.jpg"]
      (some metalSpecTable) [] =
      [(str "Metallic", str "metal_specular.<UDIM>.jpg")] := by
  exact ⟨by decide, by decide⟩

/-- C3, counterexample: when exactly one candidate remains after UDIM
collapsing on the UDIM path, the result is NOT unconditionally
`{BaseMap: candidate}`: the collapsed candidate still goes through keyword
inference and here is assigned `Normal`. -/
theorem C3_counterexample :
    find_matching_textures (str "normal")
      [str "normal.1001.jpg", str "normal.1002.jpg"]
      (some diffNormalTable) [] =
      [(str "Normal", str "normal.<UDIM>.jpg")] := by decide

/-- C3, amended: an empty `texture_files` list returns `{}`, and a
one-element file list returns `{BaseMap: that file}` regardless of filename
content (the single-file shortcut lives on the standard path, which a single
file always takes); but a single candidate that remains after UDIM
collapsing on the UDIM path undergoes ordinary channel inference and may be
assigned a channel other than `BaseMap`. -/
theorem C3_amended_degenerate_cases :
    (∀ m tblOpt mb, find_matching_textures m [] tblOpt mb = []) ∧
    (∀ m f tblOpt mb, m ≠ [] →
      find_matching_textures m [f] tblOpt mb = [(chBaseMap, f)]) := by
  constructor
  · intro m tblOpt mb
    simp [find_matching_textures]
  · intro m f tblOpt mb hm
    have hcount : (List.take 50 [f]).countP
        (fun x => (matchUdim (basename x)).isSome) ≤ 1 := by
      rw [List.take_of_length_le (by simp)]
      simpa using List.countP_le_length _
    unfold find_matching_textures
    rw [if_neg (by simp [hm]), if_neg (by omega)]
    rfl

/-- C3, witness for the amended claim. -/
theorem C3_witness :
    find_matching_textures (str "rock") [str "normal.jpg"] none [] =
      [(chBaseMap, str "normal.jpg")] :=
  C3_amended_degenerate_cases.2 (str "rock") (str "normal.jpg") none []
    (by decide)

/-- C9: a channel that has been assigned is never reassigned or overwritten
within the same call.  The first four conjuncts state that every pass of
both classifier paths (standard main pass, standard aggressive pass, UDIM
main pass, UDIM aggressive pass) preserves every existing binding; the last
two state that a binding made after processing any prefix of the input in
the main pass survives to the final result of the whole function. -/
theorem C9_no_reassignment :
    (∀ sb tbl found files (c p : Str), alookup found c = some p →
      alookup (stdMainFold sb tbl found files) c = some p) ∧
    (∀ tbl found files (c p : Str), alookup found c = some p →
      alookup (stdAggFold tbl found files) c = some p) ∧
    (∀ sb tbl found cands (c p : Str), alookup found c = some p →
      alookup (udimMainFold sb tbl found cands) c = some p) ∧
    (∀ tbl found cands (c p : Str), alookup found c = some p →
      alookup (udimAggFold tbl found cands) c = some p) ∧
    (∀ m files tbl mb (c p : Str) pre suf, files = pre ++ suf →
      files.length ≠ 1 →
      alookup (stdMainFold (stdSearchBases m mb) tbl [] pre) c = some p →
      alookup (find_matching_textures_standard m files tbl mb) c = some p) ∧
    (∀ m files tbl mb (c p : Str) pre suf,
      candidatesOf (detect_udim_sequences files) = pre ++ suf →
      m ≠ [] → files ≠ [] →
      alookup (udimMainFold (udimSearchBases m mb) tbl [] pre) c = some p →
      alookup (find_matching_textures_with_udim m files tbl mb) c = some p) := by
  refine ⟨?_, ?_, ?_, ?_, ?_, ?_⟩
  · intro sb tbl found files c p h
    exact foldl_alookup_preserves (stdStep_preserves sb tbl) files found h
  · intro tbl found files c p h
    exact foldl_alookup_preserves (stdAggStep_preserves tbl) files found h
  · intro sb tbl found cands c p h
    exact foldl_alookup_preserves (udimStep_preserves sb tbl) cands found h
  · intro tbl found cands c p h
    exact foldl_alookup_preserves (udimAggStep_preserves tbl) cands found h
  · intro m files tbl mb c p pre suf hsplit hlen h
    match files, hsplit with
    | [], hsplit =>
      have : pre = [] := by
        cases List.append_eq_nil.mp hsplit.symm; assumption
      rw [this] at h
      simp [stdMainFold, alookup] at h
    | [f], _ => exact absurd rfl hlen
    | f :: g :: rest, hsplit =>
      have hmain : alookup
          (stdMainFold (stdSearchBases m mb) tbl [] (f :: g :: rest)) c =
          some p := by
        rw [hsplit]
        unfold stdMainFold
        rw [List.foldl_append]
        exact foldl_alookup_preserves (stdStep_preserves _ tbl) suf _ h
      show alookup (find_matching_textures_standard m (f :: g :: rest) tbl mb)
          c = some p
      simp only [find_matching_textures_standard]
      rw [if_neg (alookup_ne_nil hmain), if_neg (alookup_ne_nil hmain)]
      exact hmain
  · intro m files tbl mb c p pre suf hsplit hm hf h
    have hmain : alookup
        (udimMainFold (udimSearchBases m mb) tbl []
          (candidatesOf (detect_udim_sequences files))) c = some p := by
      rw [hsplit]
      unfold udimMainFold
      rw [List.foldl_append]
      exact foldl_alookup_preserves (udimStep_preserves _ tbl) suf _ h
    simp only [find_matching_textures_with_udim]
    rw [if_neg (by simp [hm, hf]), if_neg (alookup_ne_nil hmain),
      if_neg (by simp [alookup_ne_nil hmain])]
    exact hmain

/-- C9, witness: a concrete binding made in the standard main pass survives
to the result of `_find_matching_textures_standard`. -/
theorem C9_witness :
    alookup (find_matching_textures_standard (str "crate")
      [str "crate_diff.jpg", str "x.png"] diffNormalTable []) (str "BaseMap") =
      some (str "crate_diff.jpg") :=
  C9_no_reassignment.2.2.2.2.1 (str "crate")
    [str "crate_diff.jpg", str "x.png"] diffNormalTable []
    (str "BaseMap") (str "crate_diff.jpg")
    [str "crate_diff.jpg", str "x.png"] [] (by simp) (by decide) (by decide)

/-! ## Characterisation of `detect_udim_sequences` -/

theorem pass1Step_snd (st : List (Str × List UdimTile) × List Str) (f : Str) :
    (pass1Step st f).2 = st.2 ++ (if acceptedUdim f then [] else [f]) := by
  cases hm : matchUdim (basename f) with
  | none => simp [pass1Step, acceptedUdim, hm]
  | some trip =>
    obtain ⟨b, d4, ext⟩ := trip
    by_cases hr : inUdimRange (digitsToNat d4)
    · simp [pass1Step, acceptedUdim, hm, hr]
    · simp [pass1Step, acceptedUdim, hm, hr]

theorem pass1_snd_eq (files : List Str) :
    ∀ (g : List (Str × List UdimTile)) (s : List Str),
      (files.foldl pass1Step (g, s)).2 =
        s ++ files.filter (fun f => !acceptedUdim f) := by
  induction files with
  | nil => intro g s; simp
  | cons f fs ih =>
    intro g s
    rw [List.foldl_cons]
    have hp : pass1Step (g, s) f =
        ((pass1Step (g, s) f).1, (pass1Step (g, s) f).2) := rfl
    rw [hp, ih, pass1Step_snd]
    by_cases h : acceptedUdim f <;>
      simp [h, List.filter_cons, List.append_assoc]

theorem pass2_fold_eq (gs : List (Str × List UdimTile)) :
    ∀ (seqs : List (Str × UdimSeq)) (s : List Str),
      gs.foldl pass2Step (seqs, s) =
        (seqs ++ (gs.filter
            (fun g => decide (UDIM_min_tiles ≤ g.2.length))).map
            (fun g => mkSeqEntry g.1 g.2),
         s ++ (gs.filter
            (fun g => !decide (UDIM_min_tiles ≤ g.2.length))).flatMap
            (fun g => g.2.map (fun t => t.file))) := by
  induction gs with
  | nil => intro seqs s; simp
  | cons g rest ih =>
    intro seqs s
    rw [List.foldl_cons]
    by_cases hbig : UDIM_min_tiles ≤ g.2.length
    · rw [show pass2Step (seqs, s) g = (seqs ++ [mkSeqEntry g.1 g.2], s) by
        simp [pass2Step, hbig]]
      rw [ih]
      simp [List.filter_cons, hbig, List.append_assoc]
    · rw [show pass2Step (seqs, s) g =
          (seqs, s ++ g.2.map (fun t => t.file)) by simp [pass2Step, hbig]]
      rw [ih]
      simp [List.filter_cons, hbig, List.append_assoc]

theorem detect_udim_sequences_eq (files : List Str) :
    detect_udim_sequences files =
      { udim_sequences := ((pass1Groups files).filter
          (fun g => decide (UDIM_min_tiles ≤ g.2.length))).map
          (fun g => mkSeqEntry g.1 g.2),
        single_textures := files.filter (fun f => !acceptedUdim f) ++
          ((pass1Groups files).filter
            (fun g => !decide (UDIM_min_tiles ≤ g.2.length))).flatMap
            (fun g => g.2.map (fun t => t.file)) } := by
  have h1 : (pass1 files).2 = files.filter (fun f => !acceptedUdim f) := by
    unfold pass1
    rw [pass1_snd_eq]
    simp
  show UdimAnalysis.mk _ _ = _
  rw [pass2_fold_eq]
  simp only [pass1Groups, h1, List.nil_append]

/-- C6, counterexample: the singles list does not globally preserve input
order: `"a.1001.jpg"` precedes `"b.jpg"` in the input, but after its
one-tile UDIM group degrades back to singles it is appended at the end,
after `"b.jpg"`. -/
theorem C6_counterexample :
    (detect_udim_sequences [str "a.1001.jpg", str "b.jpg"]).single_textures =
      [str "b.jpg", str "a.1001.jpg"] ∧
    List.indexOf (str "a.1001.jpg") [str "a.1001.jpg", str "b.jpg"] <
      List.indexOf (str "b.jpg") [str "a.1001.jpg", str "b.jpg"] ∧
    ¬ List.indexOf (str "a.1001.jpg")
        (detect_udim_sequences
          [str "a.1001.jpg", str "b.jpg"]).single_textures <
      List.indexOf (str "b.jpg")
        (detect_udim_sequences
          [str "a.1001.jpg", str "b.jpg"]).single_textures := by decide

/-- C6, amended: the singles list is the input-order-preserving filter of
the files that never entered a UDIM group, followed by the member files of
the under-threshold groups (grouped by base name in first-appearance order,
each group's files in input order). -/
theorem C6_amended_singles_order (files : List Str) :
    (detect_udim_sequences files).single_textures =
      files.filter (fun f => !acceptedUdim f) ++
        ((pass1Groups files).filter
          (fun g => !decide (UDIM_min_tiles ≤ g.2.length))).flatMap
          (fun g => g.2.map (fun t => t.file)) := by
  rw [detect_udim_sequences_eq]

/-- C4, counterexample: with the default configuration the tile numbers
1150 and 1151 (inside the claimed 1001–1999 range) are rejected as out of
range: the two files fall through to singles instead of forming a
sequence. -/
theorem C4_counterexample :
    detect_udim_sequences [str "a.1150.jpg", str "a.1151.jpg"] =
      { udim_sequences := [],
        single_textures := [str "a.1150.jpg", str "a.1151.jpg"] } := by decide

/-- C4, amended: a matched file whose tile number is outside the valid UDIM
range falls through to singles, and with the default configuration the
accepted range is 1001 through 1100 inclusive (not 1001–1999). -/
theorem C4_amended_range :
    (∀ n, inUdimRange n = true ↔ (1001 ≤ n ∧ n ≤ 1100)) ∧
    (∀ files f b d e, f ∈ files → matchUdim (basename f) = some (b, d, e) →
      inUdimRange (digitsToNat d) = false →
      f ∈ (detect_udim_sequences files).single_textures) := by
  constructor
  · intro n
    simp [inUdimRange, UDIM_range_start, UDIM_range_end]
  · intro files f b d e hf hm hr
    rw [detect_udim_sequences_eq]
    apply List.mem_append_left
    exact List.mem_filter.mpr ⟨hf, by simp [acceptedUdim, hm, hr]⟩

/-- C4, witness for the amended claim. -/
theorem C4_witness :
    str "a.1150.jpg" ∈
      (detect_udim_sequences [str "a.1150.jpg"]).single_textures :=
  C4_amended_range.2 [str "a.1150.jpg"] (str "a.1150.jpg") (str "a")
    (str "1150") (str "jpg") (by decide) (by decide) (by decide)

/-! ## Group keys are distinct -/

theorem addToGroup_keys (b : Str) (t : UdimTile) :
    ∀ gs : List (Str × List UdimTile),
      (addToGroup gs b t).map Prod.fst =
        if b ∈ gs.map Prod.fst then gs.map Prod.fst
        else gs.map Prod.fst ++ [b] := by
  intro gs
  induction gs with
  | nil => simp [addToGroup]
  | cons g rest ih =>
    obtain ⟨k, ts⟩ := g
    by_cases hk : k = b
    · simp [addToGroup, hk]
    · have hne : ¬ b = k := fun h => hk h.symm
      by_cases hmem : b ∈ rest.map Prod.fst
      · simp [addToGroup, hk, ih, hmem, List.mem_cons, hne]
      · simp [addToGroup, hk, ih, hmem, List.mem_cons, hne]

theorem pass1_keys_nodup (files : List Str) :
    ∀ g s, ((g.map Prod.fst).Nodup) →
      (((files.foldl pass1Step (g, s)).1).map Prod.fst).Nodup := by
  induction files with
  | nil => intro g s h; simpa using h
  | cons f fs ih =>
    intro g s h
    rw [List.foldl_cons]
    have hp : pass1Step (g, s) f =
        ((pass1Step (g, s) f).1, (pass1Step (g, s) f).2) := rfl
    rw [hp]
    apply ih
    cases hm : matchUdim (basename f) with
    | none => simpa [pass1Step, hm] using h
    | some trip =>
      obtain ⟨b, d4, ext⟩ := trip
      by_cases hr : inUdimRange (digitsToNat d4)
      · simp only [pass1Step, hm, hr, if_pos]
        rw [addToGroup_keys]
        split
        · exact h
        · rw [List.nodup_append]
          refine ⟨h, List.nodup_singleton b, ?_⟩
          rw [List.disjoint_singleton]
          assumption
      · simpa [pass1Step, hm, hr] using h

theorem nodup_keys_unique {l : List (Str × List UdimTile)}
    (h : (l.map Prod.fst).Nodup) {b : Str} {x y : List UdimTile}
    (hx : (b, x) ∈ l) (hy : (b, y) ∈ l) : x = y := by
  induction l with
  | nil => simp at hx
  | cons g rest ih =>
    rw [List.map_cons, List.nodup_cons] at h
    rcases List.mem_cons.mp hx with hx1 | hx2
    · rcases List.mem_cons.mp hy with hy1 | hy2
      · rw [← hx1] at hy1
        exact (Prod.mk.injEq _ _ _ _ ▸ hy1.symm).2
      · exfalso
        apply h.1
        rw [← hx1]
        exact List.mem_map.mpr ⟨(b, y), hy2, rfl⟩
    · rcases List.mem_cons.mp hy with hy1 | hy2
      · exfalso
        apply h.1
        rw [← hy1]
        exact List.mem_map.mpr ⟨(b, x), hx2, rfl⟩
      · exact ih h.2 hx2 hy2

/-- C7: a UDIM group with at least `min_tiles` tiles (so in particular
exactly `min_tiles = 2` tiles) is promoted to a sequence whose entry is
built by `mkSeqEntry`; a group with fewer tiles yields no sequence under its
base name, and each of its member files reappears in `single_textures`. -/
theorem C7_min_tiles_threshold :
    ∀ files b tiles, (b, tiles) ∈ pass1Groups files →
      (UDIM_min_tiles ≤ tiles.length →
        mkSeqEntry b tiles ∈
          (detect_udim_sequences files).udim_sequences) ∧
      (tiles.length < UDIM_min_tiles →
        (∀ e ∈ (detect_udim_sequences files).udim_sequences, e.1 ≠ b) ∧
        (∀ t ∈ tiles, t.file ∈
          (detect_udim_sequences files).single_textures)) := by
  intro files b tiles hmem
  have hnd : ((pass1Groups files).map Prod.fst).Nodup := by
    unfold pass1Groups pass1
    exact pass1_keys_nodup files [] [] (by simp)
  constructor
  · intro hbig
    rw [detect_udim_sequences_eq]
    exact List.mem_map.mpr
      ⟨(b, tiles), List.mem_filter.mpr ⟨hmem, by simpa using hbig⟩, rfl⟩
  · intro hsmall
    constructor
    · intro e he
      rw [detect_udim_sequences_eq] at he
      obtain ⟨g, hg, hge⟩ := List.mem_map.mp he
      obtain ⟨hgmem, hgbig⟩ := List.mem_filter.mp hg
      intro hb
      have hkey : g.1 = b := by
        rw [← hge] at hb
        exact hb
      have : g.2 = tiles := by
        have : (b, g.2) ∈ pass1Groups files := by
          rw [← hkey]
          exact hgmem
        exact nodup_keys_unique hnd this hmem
      rw [this] at hgbig
      simp at hgbig
      omega
    · intro t ht
      rw [detect_udim_sequences_eq]
      apply List.mem_append_right
      exact List.mem_flatMap.mpr
        ⟨(b, tiles),
         List.mem_filter.mpr ⟨hmem, by simp; omega⟩,
         List.mem_map.mpr ⟨t, ht, rfl⟩⟩

/-- C7, witness: in a concrete run, the two-tile group `"x"` is promoted
and the one-tile group `"y"` degrades back to singles. -/
theorem C7_witness :
    mkSeqEntry (str "x")
      [⟨str "x.1001.jpg", 1001, str "jpg"⟩,
       ⟨str "x.1002.jpg", 1002, str "jpg"⟩] ∈
      (detect_udim_sequences
        [str "x.1001.jpg", str "x.1002.jpg", str "y.1001.jpg"]).udim_sequences ∧
    str "y.1001.jpg" ∈
      (detect_udim_sequences
        [str "x.1001.jpg", str "x.1002.jpg", str "y.1001.jpg"]).single_textures := by
  constructor
  · exact (C7_min_tiles_threshold
      [str "x.1001.jpg", str "x.1002.jpg", str "y.1001.jpg"] (str "x")
      [⟨str "x.1001.jpg", 1001, str "jpg"⟩,
       ⟨str "x.1002.jpg", 1002, str "jpg"⟩] (by decide)).1 (by decide)
  · exact ((C7_min_tiles_threshold
      [str "x.1001.jpg", str "x.1002.jpg", str "y.1001.jpg"] (str "y")
      [⟨str "y.1001.jpg", 1001, str "jpg"⟩] (by decide)).2 (by decide)).2
      ⟨str "y.1001.jpg", 1001, str "jpg"⟩ (by decide)

/-! ## The detector is a partition (C10) -/

theorem pass1Step_accept {f b d4 ext : Str}
    (st : List (Str × List UdimTile) × List Str)
    (hm : matchUdim (basename f) = some (b, d4, ext))
    (hr : inUdimRange (digitsToNat d4) = true) :
    pass1Step st f = (addToGroup st.1 b ⟨f, digitsToNat d4, ext⟩, st.2) := by
  simp [pass1Step, hm, hr]

theorem pass1Step_reject {f : Str}
    (st : List (Str × List UdimTile) × List Str)
    (h : acceptedUdim f = false) :
    pass1Step st f = (st.1, st.2 ++ [f]) := by
  unfold acceptedUdim at h
  cases hm : matchUdim (basename f) with
  | none => simp [pass1Step, hm]
  | some trip =>
    obtain ⟨b, d4, ext⟩ := trip
    rw [hm] at h
    simp only [] at h
    simp [pass1Step, hm, h]

theorem filesOfGroups_addToGroup (b : Str) (t : UdimTile) :
    ∀ gs, (filesOfGroups (addToGroup gs b t)).Perm
      (t.file :: filesOfGroups gs) := by
  intro gs
  induction gs with
  | nil => simp [addToGroup, filesOfGroups]
  | cons g rest ih =>
    obtain ⟨k, ts⟩ := g
    by_cases hk : k = b
    · rw [show addToGroup ((k, ts) :: rest) b t = (k, ts ++ [t]) :: rest from
        by simp [addToGroup, hk]]
      show ((ts ++ [t]).map (fun u => u.file) ++
          rest.flatMap (fun g => g.2.map (fun u => u.file))).Perm
        (t.file :: (ts.map (fun u => u.file) ++
          rest.flatMap (fun g => g.2.map (fun u => u.file))))
      rw [List.map_append, List.map_cons, List.map_nil, List.append_assoc,
        List.singleton_append]
      exact List.perm_middle
    · rw [show addToGroup ((k, ts) :: rest) b t =
          (k, ts) :: addToGroup rest b t from by simp [addToGroup, hk]]
      show (ts.map (fun u => u.file) ++
          filesOfGroups (addToGroup rest b t)).Perm
        (t.file :: (ts.map (fun u => u.file) ++ filesOfGroups rest))
      exact (List.Perm.append_left _ ih).trans List.perm_middle

theorem pass1_files_perm (files : List Str) :
    ∀ g s, ((filesOfGroups (files.foldl pass1Step (g, s)).1) ++
        (files.foldl pass1Step (g, s)).2).Perm
      (filesOfGroups g ++ s ++ files) := by
  induction files with
  | nil => intro g s; simp
  | cons f fs ih =>
    intro g s
    rw [List.foldl_cons]
    cases ha : acceptedUdim f with
    | false =>
      rw [pass1Step_reject (g, s) ha]
      refine (ih _ _).trans ?_
      have heq : filesOfGroups g ++ (s ++ [f]) ++ fs =
          filesOfGroups g ++ s ++ (f :: fs) := by
        simp [List.append_assoc]
      rw [heq]
    | true =>
      unfold acceptedUdim at ha
      cases hm : matchUdim (basename f) with
      | none => rw [hm] at ha; simp at ha
      | some trip =>
        obtain ⟨b, d4, ext⟩ := trip
        rw [hm] at ha
        simp only [] at ha
        rw [pass1Step_accept (g, s) hm ha]
        refine (ih _ _).trans ?_
        have h1 : (filesOfGroups (addToGroup g b ⟨f, digitsToNat d4, ext⟩) ++
            s ++ fs).Perm ((f :: filesOfGroups g) ++ s ++ fs) :=
          ((filesOfGroups_addToGroup b ⟨f, digitsToNat d4, ext⟩ g).append_right
            s).append_right fs
        exact h1.trans List.perm_middle.symm

/-- C10: `detect_udim_sequences` partitions its input — the concatenation
of all emitted sequences\' member files with the singles list is a
permutation of the input list, so no file is dropped or duplicated and
every output file comes from the input. -/
theorem C10_partition (files : List Str) :
    (((detect_udim_sequences files).udim_sequences.flatMap
        (fun e => e.2.files)) ++
      (detect_udim_sequences files).single_textures).Perm files := by
  have h2 : (pass1 files).2 = files.filter (fun f => !acceptedUdim f) := by
    unfold pass1
    rw [pass1_snd_eq]
    simp
  have hall : (filesOfGroups (pass1Groups files) ++
      files.filter (fun f => !acceptedUdim f)).Perm files := by
    rw [← h2]
    have hbase := pass1_files_perm files [] []
    unfold pass1Groups pass1
    simpa [filesOfGroups] using hbase
  rw [detect_udim_sequences_eq]
  dsimp only
  rw [List.flatMap_map]
  have hseq : (((pass1Groups files).filter
      (fun g => decide (UDIM_min_tiles ≤ g.2.length))).flatMap
      (fun g => (mkSeqEntry g.1 g.2).2.files)).Perm
      (((pass1Groups files).filter
        (fun g => decide (UDIM_min_tiles ≤ g.2.length))).flatMap
        (fun g => g.2.map (fun t => t.file))) := by
    apply List.Perm.flatMap_left
    intro g hg
    exact (List.perm_insertionSort (fun a b => a.udim ≤ b.udim) g.2).map
      (fun t => t.file)
  refine (hseq.append_right _).trans ?_
  refine (List.Perm.append_left _ List.perm_append_comm).trans ?_
  rw [← List.append_assoc, ← List.flatMap_append]
  refine ((List.Perm.flatMap_right (fun g => g.2.map (fun t => t.file))
    (List.filter_append_perm (fun g => decide (UDIM_min_tiles ≤ g.2.length))
      (pass1Groups files))).append_right _).trans ?_
  exact hall

/-! ## Shape of the UDIM regex match (C5) -/

theorem udimSplitAt_decomp {name : Str} {k : Nat} {b d e : Str}
    (h : udimSplitAt name k = some (b, d, e)) :
    ∃ c, (c = '.' ∨ c = '_') ∧ name = b ++ c :: (d ++ '.' :: e) ∧ b ≠ [] ∧
      d.length = 4 ∧ d.all isPyDigit = true ∧
      UDIM_extensions.contains (pyLower e) = true := by
  unfold udimSplitAt at h
  cases hd : name.drop k with
  | nil => rw [hd] at h; simp at h
  | cons c rest2 =>
    rw [hd] at h
    dsimp only at h
    split at h <;> rename_i hsep
    case isFalse => simp at h
    split at h <;> rename_i hd4
    case isFalse => simp at h
    cases hd2 : rest2.drop 4 with
    | nil => rw [hd2] at h; simp at h
    | cons c2 ext =>
      rw [hd2] at h
      dsimp only at h
      split at h <;> rename_i hdot
      case isFalse => simp at h
      simp only [Option.some.injEq, Prod.mk.injEq] at h
      obtain ⟨hb, hdd, hee⟩ := h
      subst hb
      subst hdd
      subst hee
      refine ⟨c, hsep.1, ?_, hsep.2.1, hd4.1, hd4.2, hdot.2⟩
      conv_lhs => rw [← List.take_append_drop k name]
      rw [hd]
      congr 1
      congr 1
      conv_lhs => rw [← List.take_append_drop 4 rest2]
      rw [hd2, hdot.1]

theorem matchUdim_decomp {name b d e : Str}
    (h : matchUdim name = some (b, d, e)) :
    ∃ c, (c = '.' ∨ c = '_') ∧
      stripDollarNL name = b ++ c :: (d ++ '.' :: e) ∧ b ≠ [] ∧
      d.length = 4 ∧ d.all isPyDigit = true ∧
      UDIM_extensions.contains (pyLower e) = true := by
  unfold matchUdim at h
  obtain ⟨k, hk, hsplit⟩ := List.exists_of_findSome?_eq_some h
  exact udimSplitAt_decomp hsplit

/-- C5, counterexample: two hyphen-separated tile files are NOT detected as
a UDIM sequence — they fall through to singles, contradicting the claim
that `'-'` is an accepted separator (via alternative patterns) in
`detect_udim_sequences`. -/
theorem C5_counterexample :
    detect_udim_sequences [str "t-1001.jpg", str "t-1002.jpg"] =
      { udim_sequences := [],
        single_textures := [str "t-1001.jpg", str "t-1002.jpg"] } := by decide

/-- C5, amended: `detect_udim_sequences` consults only the single primary
pattern, whose separator class is `[._]`: a `'.'` or `'_'` separated
4-digit tile filename with a supported extension matches, a `'-'` separated
one does not, and every successful match decomposes the name as
`<base><sep><4 digits>.<ext>` with the separator `'.'` or `'_'`.  The
configured alternative-separator patterns are never consulted. -/
theorem C5_amended_separators :
    matchUdim (str "t-1001.jpg") = none ∧
    matchUdim (str "t.1001.jpg") = some (str "t", str "1001", str "jpg") ∧
    matchUdim (str "t_1001.jpg") = some (str "t", str "1001", str "jpg") ∧
    (∀ name b d e, matchUdim name = some (b, d, e) →
      ∃ c, (c = '.' ∨ c = '_') ∧
        stripDollarNL name = b ++ c :: (d ++ '.' :: e) ∧ b ≠ [] ∧
        d.length = 4 ∧ d.all isPyDigit = true ∧
        UDIM_extensions.contains (pyLower e) = true) :=
  ⟨by decide, by decide, by decide,
   fun _ _ _ _ h => matchUdim_decomp h⟩

/-- C5, witness for the amended claim, at the input `"t.1001.jpg"`. -/
theorem C5_witness :
    ∃ c, (c = '.' ∨ c = '_') ∧
      stripDollarNL (str "t.1001.jpg") =
        str "t" ++ c :: (str "1001" ++ '.' :: str "jpg") ∧ str "t" ≠ [] ∧
      (str "1001").length = 4 ∧ (str "1001").all isPyDigit = true ∧
      UDIM_extensions.contains (pyLower (str "jpg")) = true :=
  C5_amended_separators.2.2.2 (str "t.1001.jpg") (str "t") (str "1001")
    (str "jpg") (by decide)

/-! ## The placeholder survives path synthesis (C8) -/

theorem sortTiles_perm (ts : List UdimTile) : (sortTiles ts).Perm ts := by
  unfold sortTiles
  exact List.perm_insertionSort _ ts

theorem basename_no_slash (p : Str) : '/' ∉ basename p := by
  intro hmem
  unfold basename at hmem
  rw [List.mem_reverse] at hmem
  have := List.mem_takeWhile_imp hmem
  simp at this

theorem matchUdim_subset {n b d e : Str} (h : matchUdim n = some (b, d, e)) :
    (∀ c ∈ b, c ∈ n) ∧ (∀ c ∈ e, c ∈ n) := by
  obtain ⟨c0, _, hdec, _, _, _, _⟩ := matchUdim_decomp h
  have hsub : ∀ x ∈ stripDollarNL n, x ∈ n := by
    unfold stripDollarNL
    split
    · intro x hx
      exact List.dropLast_subset n hx
    · intro x hx
      exact hx
  constructor
  · intro x hx
    apply hsub
    rw [hdec]
    simp [hx]
  · intro x hx
    apply hsub
    rw [hdec]
    simp [hx]

theorem addToGroup_ok (b : Str) (t : UdimTile) (hb1 : b ≠ [])
    (hb2 : '/' ∉ b) (ht : '/' ∉ t.ext) :
    ∀ gs, (∀ g ∈ gs, g.1 ≠ [] ∧ '/' ∉ g.1 ∧ ∀ u ∈ g.2, '/' ∉ u.ext) →
      ∀ g ∈ addToGroup gs b t,
        g.1 ≠ [] ∧ '/' ∉ g.1 ∧ ∀ u ∈ g.2, '/' ∉ u.ext := by
  intro gs
  induction gs with
  | nil =>
    intro _ g hg
    simp [addToGroup] at hg
    rw [hg]
    exact ⟨hb1, hb2, by simpa using ht⟩
  | cons g0 rest ih =>
    intro hall g hg
    obtain ⟨k, ts⟩ := g0
    by_cases hk : k = b
    · rw [show addToGroup ((k, ts) :: rest) b t = (k, ts ++ [t]) :: rest from
        by simp [addToGroup, hk]] at hg
      rcases List.mem_cons.mp hg with rfl | hrest
      · have h0 := hall (k, ts) (List.mem_cons_self _ _)
        refine ⟨h0.1, h0.2.1, ?_⟩
        intro u hu
        rcases List.mem_append.mp hu with h1 | h2
        · exact h0.2.2 u h1
        · rw [show u = t by simpa using h2]
          exact ht
      · exact hall g (List.mem_cons_of_mem _ hrest)
    · rw [show addToGroup ((k, ts) :: rest) b t =
          (k, ts) :: addToGroup rest b t from by simp [addToGroup, hk]] at hg
      rcases List.mem_cons.mp hg with rfl | hrest
      · exact hall (k, ts) (List.mem_cons_self _ _)
      · exact ih (fun x hx => hall x (List.mem_cons_of_mem _ hx)) g hrest

theorem pass1_groups_ok (files : List Str) :
    ∀ g s, (∀ x ∈ g, x.1 ≠ [] ∧ '/' ∉ x.1 ∧ ∀ u ∈ x.2, '/' ∉ u.ext) →
      ∀ x ∈ (files.foldl pass1Step (g, s)).1,
        x.1 ≠ [] ∧ '/' ∉ x.1 ∧ ∀ u ∈ x.2, '/' ∉ u.ext := by
  induction files with
  | nil => intro g s hg; simpa using hg
  | cons f fs ih =>
    intro g s hg
    rw [List.foldl_cons]
    cases ha : acceptedUdim f with
    | false =>
      rw [pass1Step_reject (g, s) ha]
      exact ih g (s ++ [f]) hg
    | true =>
      unfold acceptedUdim at ha
      cases hm : matchUdim (basename f) with
      | none => rw [hm] at ha; simp at ha
      | some trip =>
        obtain ⟨b, d4, ext⟩ := trip
        rw [hm] at ha
        simp only [] at ha
        rw [pass1Step_accept (g, s) hm ha]
        apply ih
        obtain ⟨c0, _, _, hbne, _, _, _⟩ := matchUdim_decomp hm
        have hsub := matchUdim_subset hm
        apply addToGroup_ok b ⟨f, digitsToNat d4, ext⟩ hbne
        · intro hsl
          exact basename_no_slash f (hsub.1 '/' hsl)
        · intro hsl
          exact basename_no_slash f (hsub.2 '/' hsl)
        · exact hg

theorem splitSlash_ne_nil (p : Str) : splitSlash p ≠ [] := by
  cases p with
  | nil => simp [splitSlash]
  | cons c rest =>
    unfold splitSlash
    by_cases hc : c = '/'
    · simp [hc]
    · simp only [hc, ite_false, if_neg]
      split <;> simp

theorem splitSlash_no_slash : ∀ c : Str, '/' ∉ c → splitSlash c = [c] := by
  intro c
  induction c with
  | nil => intro _; rfl
  | cons x rest ih =>
    intro h
    have hx : ¬ x = '/' := fun e => h (by simp [e])
    have hrest : '/' ∉ rest := fun hr => h (List.mem_cons_of_mem _ hr)
    simp [splitSlash, hx, ih hrest]

theorem splitSlash_append (a : Str) {c : Str} (hc : '/' ∉ c) :
    splitSlash (a ++ '/' :: c) = splitSlash a ++ [c] := by
  induction a with
  | nil =>
    simp only [List.nil_append]
    show splitSlash ('/' :: c) = [[]] ++ [c]
    simp [splitSlash, splitSlash_no_slash c hc]
  | cons x rest ih =>
    by_cases hx : x = '/'
    · show splitSlash (x :: (rest ++ '/' :: c)) = splitSlash (x :: rest) ++ [c]
      simp [splitSlash, hx, ih]
    · show splitSlash (x :: (rest ++ '/' :: c)) = splitSlash (x :: rest) ++ [c]
      obtain ⟨p2, m2, hp2⟩ := List.exists_cons_of_ne_nil (splitSlash_ne_nil rest)
      have h1 : splitSlash (rest ++ '/' :: c) = p2 :: (m2 ++ [c]) := by
        rw [ih, hp2]
        simp
      simp [splitSlash, hx, h1, hp2]

theorem normComps_append (is : Nat) (l1 l2 : List Str) :
    ∀ acc, normComps is acc (l1 ++ l2) = normComps is (normComps is acc l1) l2 := by
  induction l1 with
  | nil => intro acc; rfl
  | cons x rest ih =>
    intro acc
    show normComps is acc (x :: (rest ++ l2)) = _
    simp only [normComps]
    split
    · exact ih _
    · split
      · exact ih _
      · split
        · exact ih _
        · exact ih _

theorem normComps_last (is : Nat) (acc : List Str) {c : Str}
    (h1 : c ≠ []) (h2 : c ≠ ['.']) (h3 : c ≠ ['.', '.']) :
    normComps is acc [c] = acc ++ [c] := by
  unfold normComps
  rw [if_neg (by simp [h1, h2]), if_pos (Or.inl h3)]
  rfl

theorem joinSep_last (sp : Str) : ∀ (l : List Str) (c : Str),
    ∃ pre, joinSep sp (l ++ [c]) = pre ++ c := by
  intro l
  induction l with
  | nil => intro c; exact ⟨[], rfl⟩
  | cons x rest ih =>
    intro c
    obtain ⟨pre, hpre⟩ := ih c
    cases rest with
    | nil => exact ⟨x ++ sp, by simp [joinSep]⟩
    | cons y t =>
      refine ⟨x ++ sp ++ pre, ?_⟩
      show joinSep sp (x :: ((y :: t) ++ [c])) = x ++ sp ++ pre ++ c
      rw [show (y :: t) ++ [c] = y :: (t ++ [c]) from rfl]
      rw [show joinSep sp (x :: y :: (t ++ [c])) =
          x ++ sp ++ joinSep sp (y :: (t ++ [c])) from rfl]
      rw [show joinSep sp (y :: (t ++ [c])) = joinSep sp ((y :: t) ++ [c])
          from rfl]
      rw [hpre]
      simp [List.append_assoc]

theorem out_ends_with (is : Nat) (B : List Str) {c : Str} (h1 : c ≠ []) :
    ∃ pre,
      (if (List.replicate is '/' ++ joinSep (str "/") (B ++ [c])) = []
        then ['.']
        else List.replicate is '/' ++ joinSep (str "/") (B ++ [c])) =
        pre ++ c := by
  obtain ⟨pre1, hpre1⟩ := joinSep_last (str "/") B c
  rw [hpre1]
  rw [if_neg (by simp [h1])]
  exact ⟨List.replicate is '/' ++ pre1, by simp [List.append_assoc]⟩

theorem normpath_bare {c : Str} (h0 : '/' ∉ c) (h1 : c ≠ [])
    (h2 : c ≠ ['.']) (h3 : c ≠ ['.', '.']) : normpath c = c := by
  have hhead : ¬ c.head? = some '/' := by
    cases c with
    | nil => simp
    | cons a t =>
      simp only [List.head?, Option.some.injEq]
      intro he
      exact h0 (by simp [he])
  unfold normpath
  rw [if_neg h1]
  dsimp only
  rw [if_neg hhead, splitSlash_no_slash c h0, normComps_last 0 [] h1 h2 h3]
  simp only [List.nil_append, List.replicate_zero]
  rw [show joinSep (str "/") [c] = c from rfl]
  rw [if_neg h1]

theorem normpath_after_slash (x : Str) {c : Str} (h0 : '/' ∉ c)
    (h1 : c ≠ []) (h2 : c ≠ ['.']) (h3 : c ≠ ['.', '.']) :
    ∃ pre, normpath (x ++ '/' :: c) = pre ++ c := by
  have hpne : x ++ '/' :: c ≠ [] := by simp
  unfold normpath
  rw [if_neg hpne]
  dsimp only
  rw [splitSlash_append x h0, normComps_append, normComps_last _ _ h1 h2 h3]
  exact out_ends_with _ _ h1

theorem pjoin_shape (dir : Str) {c : Str} (hc : ¬ c.head? = some '/') :
    pjoin dir c = c ∨ ∃ x, pjoin dir c = x ++ '/' :: c := by
  unfold pjoin
  rw [if_neg hc]
  by_cases hd : dir = [] ∨ dir.getLast? = some '/'
  · rw [if_pos hd]
    rcases hd with rfl | hlast
    · exact Or.inl (by simp)
    · right
      have hne : dir ≠ [] := by
        intro e
        rw [e] at hlast
        simp at hlast
      refine ⟨dir.dropLast, ?_⟩
      have hgl : dir.getLast hne = '/' := by
        have h := List.getLast?_eq_getLast dir hne
        rw [h] at hlast
        exact (Option.some.injEq _ _).mp hlast
      conv_lhs => rw [← List.dropLast_append_getLast hne]
      rw [hgl, List.append_assoc, List.singleton_append]
  · rw [if_neg hd]
    exact Or.inr ⟨dir, rfl⟩

theorem normpath_endswith {p c : Str} (h0 : '/' ∉ c) (hlen : 2 < c.length)
    (hp : p = c ∨ ∃ x, p = x ++ '/' :: c) :
    ∃ pre, normpath p = pre ++ c := by
  have h1 : c ≠ [] := by
    intro e
    rw [e] at hlen
    simp at hlen
  have h2 : c ≠ ['.'] := by
    intro e
    rw [e] at hlen
    simp at hlen
  have h3 : c ≠ ['.', '.'] := by
    intro e
    rw [e] at hlen
    simp at hlen
  rcases hp with rfl | ⟨x, rfl⟩
  · exact ⟨[], normpath_bare h0 h1 h2 h3⟩
  · exact normpath_after_slash x h0 h1 h2 h3

/-- C8: every `pattern_path` emitted by `detect_udim_sequences` decomposes
as `<prefix>.<UDIM>.<ext>`: the tile-number position between the final two
dots holds the literal placeholder `<UDIM>` (which contains no digit, hence
never a 4-digit tile number), and the placeholder occurs as a substring of
the pattern. -/
theorem C8_pattern_placeholder :
    ∀ files e, e ∈ (detect_udim_sequences files).udim_sequences →
      ∃ pre ext, e.2.pattern = pre ++ '.' :: (UDIM_placeholder ++ '.' :: ext) ∧
        UDIM_placeholder <:+: e.2.pattern ∧
        UDIM_placeholder.all (fun c => !(isPyDigit c)) = true := by
  intro files e he
  rw [detect_udim_sequences_eq] at he
  obtain ⟨g, hg, hge⟩ := List.mem_map.mp he
  obtain ⟨hgmem, hgbig⟩ := List.mem_filter.mp hg
  have hok : g.1 ≠ [] ∧ '/' ∉ g.1 ∧ ∀ u ∈ g.2, '/' ∉ u.ext :=
    pass1_groups_ok files [] [] (by simp) g hgmem
  obtain ⟨hbne, hbs, hexts⟩ := hok
  have htne : g.2 ≠ [] := by
    intro e0
    rw [e0] at hgbig
    simp [UDIM_min_tiles] at hgbig
  have hsortne : sortTiles g.2 ≠ [] := by
    intro e0
    have hperm := sortTiles_perm g.2
    rw [e0] at hperm
    exact htne (hperm.symm.eq_nil)
  have hfirstmem : (sortTiles g.2).headD ⟨[], 0, []⟩ ∈ g.2 := by
    have hmem2 : (sortTiles g.2).headD ⟨[], 0, []⟩ ∈ sortTiles g.2 := by
      cases hs : sortTiles g.2 with
      | nil => exact absurd hs hsortne
      | cons a t => simp [hs]
    exact (sortTiles_perm g.2).subset hmem2
  have hext : '/' ∉ ((sortTiles g.2).headD ⟨[], 0, []⟩).ext :=
    hexts _ hfirstmem
  have hlnoslash : '/' ∉ g.1 ++ '.' ::
      (UDIM_placeholder ++ '.' :: ((sortTiles g.2).headD ⟨[], 0, []⟩).ext) := by
    intro hmem
    rcases List.mem_append.mp hmem with h | h
    · exact hbs h
    · rcases List.mem_cons.mp h with h' | h''
      · simp at h'
      · rcases List.mem_append.mp h'' with hA | hB
        · revert hA
          decide
        · rcases List.mem_cons.mp hB with h3 | h4
          · simp at h3
          · exact hext h4
  have hlhead : ¬ (g.1 ++ '.' ::
      (UDIM_placeholder ++ '.' ::
        ((sortTiles g.2).headD ⟨[], 0, []⟩).ext)).head? = some '/' := by
    cases hb : g.1 with
    | nil => exact absurd hb hbne
    | cons a t =>
      simp only [hb, List.cons_append, List.head?, Option.some.injEq]
      intro he
      apply hbs
      rw [hb, he]
      simp
  have hlen : 2 < (g.1 ++ '.' ::
      (UDIM_placeholder ++ '.' ::
        ((sortTiles g.2).headD ⟨[], 0, []⟩).ext)).length := by
    simp [UDIM_placeholder, str]
    omega
  obtain ⟨pre, hpre⟩ := normpath_endswith hlnoslash hlen
    (pjoin_shape (dirname ((sortTiles g.2).headD ⟨[], 0, []⟩).file) hlhead)
  refine ⟨pre ++ g.1, ((sortTiles g.2).headD ⟨[], 0, []⟩).ext, ?_, ?_, by decide⟩
  · rw [← hge]
    show normpath (pjoin (dirname ((sortTiles g.2).headD ⟨[], 0, []⟩).file)
        (g.1 ++ '.' :: (UDIM_placeholder ++ '.' ::
          ((sortTiles g.2).headD ⟨[], 0, []⟩).ext))) = _
    rw [hpre]
    simp [List.append_assoc]
  · rw [← hge]
    show UDIM_placeholder <:+:
      normpath (pjoin (dirname ((sortTiles g.2).headD ⟨[], 0, []⟩).file)
        (g.1 ++ '.' :: (UDIM_placeholder ++ '.' ::
          ((sortTiles g.2).headD ⟨[], 0, []⟩).ext)))
    rw [hpre]
    exact ⟨pre ++ g.1 ++ ['.'],
      '.' :: ((sortTiles g.2).headD ⟨[], 0, []⟩).ext,
      by simp [List.append_assoc]⟩

/-- C8, witness: the property instantiated at a concrete two-tile run. -/
theorem C8_witness :
    ∃ pre ext,
      (mkSeqEntry (str "wall")
        [⟨str "tex/wall.1001.png", 1001, str "png"⟩,
         ⟨str "tex/wall.1002.png", 1002, str "png"⟩]).2.pattern =
        pre ++ '.' :: (UDIM_placeholder ++ '.' :: ext) ∧
      UDIM_placeholder <:+:
        (mkSeqEntry (str "wall")
          [⟨str "tex/wall.1001.png", 1001, str "png"⟩,
           ⟨str "tex/wall.1002.png", 1002, str "png"⟩]).2.pattern ∧
      UDIM_placeholder.all (fun c => !(isPyDigit c)) = true :=
  C8_pattern_placeholder [str "tex/wall.1001.png", str "tex/wall.1002.png"]
    (mkSeqEntry (str "wall")
      [⟨str "tex/wall.1001.png", 1001, str "png"⟩,
       ⟨str "tex/wall.1002.png", 1002, str "png"⟩])
    (by decide)

end FbxLoader
